import Mathlib

/-!
Verification of the termsuji-local core: a shallow embedding in Lean 4 of the
GTP coordinate codec (engine/gtp/gtp.go), the GTP engine session state machine
(engine/gtp/engine.go), the SGF writer (sgf/writer.go), the SGF reader
(sgf/reader.go) and the planning-mode game tree (sgf/gametree.go), together
with theorems settling the specification's claims about them.

Go strings are modelled as lists of characters; the code under verification
only ever manipulates ASCII text, and where Go performs byte arithmetic
(which wraps modulo 256) the model does the same on character codes.
Go ints are modelled as unbounded Int (no arithmetic here approaches 2^63);
Go slices are lists.  Recursions that Go expresses as index loops or as
recursion terminating through mutation (flood fill over a visited set) are
given an explicit fuel argument; every top-level entry point passes fuel
that provably cannot be exhausted on its input.
-/

namespace Termsuji

/-- Go strings, modelled as lists of (ASCII) characters. -/
abbrev Str := List Char

/-- Decimal digit character: 0 ≤ d ≤ 9 maps to the characters 0 through 9. -/
def digitChar (d : Nat) : Char := Char.ofNat (48 + d)

/-- Decimal digit string helper; the first argument is fuel bounding the
recursion depth (the recursion divides by ten each step, so any fuel of at
least n suffices and the fuel-exhausted arm is never taken). -/
def natDigitsAux : Nat → Nat → List Char
  | 0, n => [digitChar n]
  | fuel + 1, n =>
    if n < 10 then [digitChar n]
    else natDigitsAux fuel (n / 10) ++ [digitChar (n % 10)]

/-- Decimal digit string of a natural number, most significant digit first,
as produced by Go integer formatting for non-negative values. -/
def natDigits (n : Nat) : List Char := natDigitsAux n n

/-- Go formatting of an int value with the percent-d verb. -/
def intDigits (i : Int) : List Char :=
  if i < 0 then '-' :: natDigits (-i).toNat else natDigits i.toNat

/-- Is the character a decimal digit. -/
def isDigitCh (c : Char) : Bool := 48 ≤ c.toNat && c.toNat ≤ 57

/-- Numeric value of a string of decimal digits (most significant first). -/
def digitsVal (l : List Char) : Nat :=
  l.foldl (fun a c => 10 * a + (c.toNat - 48)) 0

/-- Go strconv.Atoi: an optional sign followed by one or more decimal digits;
anything else is a parse error, modelled as none. -/
def atoi (s : Str) : Option Int :=
  match s with
  | [] => none
  | c :: rest =>
    let p : Int × Str :=
      if c = '+' then (1, rest)
      else if c = '-' then (-1, rest)
      else (1, c :: rest)
    if p.2.isEmpty then none
    else if p.2.all isDigitCh then some (p.1 * ((digitsVal p.2 : Nat) : Int))
    else none

/-- ASCII upper-casing, the action of strings.ToUpper on the ASCII data
handled by the codec. -/
def toUpperCh (c : Char) : Char :=
  if 97 ≤ c.toNat ∧ c.toNat ≤ 122 then Char.ofNat (c.toNat - 32) else c

/-- ASCII whitespace, as trimmed by strings.TrimSpace. -/
def isSpaceCh (c : Char) : Bool :=
  c == ' ' || c == '\t' || c == '\n' || c == '\r' ||
  c == Char.ofNat 11 || c == Char.ofNat 12

/-- strings.TrimSpace: drop leading and trailing whitespace. -/
def trimSpace (s : Str) : Str :=
  ((s.dropWhile isSpaceCh).reverse.dropWhile isSpaceCh).reverse

/-- Go byte subtraction c minus b on a character code, wrapping modulo 256
exactly as Go byte arithmetic does, then widened to int. -/
def byteSub (c : Char) (b : Nat) : Int :=
  (((c.toNat + 256 - b % 256) % 256 : Nat) : Int)

/-! ## GTP coordinate codec (engine/gtp/gtp.go) -/

/-- posToGTP: convert 0-indexed top-left-origin coordinates to a GTP vertex.
Column letter is A plus x, skipping I (so x ≥ 8 shifts by one more); the row
number counts from the bottom of the board. -/
def posToGTP (x y size : Int) : Str :=
  let col : Char := Char.ofNat ((65 + x + (if x ≥ 8 then 1 else 0)).toNat)
  let row : Int := size - y
  col :: intDigits row

/-- gtpToPos: decode a GTP vertex into 0-indexed coordinates.
Returns (-1,-1) for a pass, (-2,-2) for a resignation, and a decode error
(modelled as Except.error with the message prefix) otherwise when the text
is malformed or out of bounds. -/
def gtpToPos (vertex : Str) (size : Int) : Except Str (Int × Int) :=
  let v := trimSpace (vertex.map toUpperCh)
  if v = "PASS".data then Except.ok (-1, -1)
  else if v = "RESIGN".data then Except.ok (-2, -2)
  else if v.length < 2 then Except.error "invalid vertex".data
  else
    match v with
    | [] => Except.error "invalid vertex".data
    | c :: rest =>
      let col0 : Int := byteSub c 65
      if col0 < 0 ∨ col0 > 19 then Except.error "invalid column in vertex".data
      else
        let col : Int := if col0 > 7 then col0 - 1 else col0
        match atoi rest with
        | none => Except.error "invalid row in vertex".data
        | some row =>
          let y : Int := size - row
          if col < 0 ∨ col ≥ size ∨ y < 0 ∨ y ≥ size then
            Except.error "vertex out of bounds".data
          else Except.ok (col, y)

/-- colorToGTP: 1 is black, anything else white. -/
def colorToGTP (color : Int) : Str :=
  if color = 1 then "black".data else "white".data

/-- oppositeColor: swap 1 and 2. -/
def oppositeColor (color : Int) : Int :=
  if color = 1 then 2 else 1

/-! ### Facts about decimal digit strings and the codec -/

theorem toNat_ofNat_valid (n : Nat) (h : n < 55296) : (Char.ofNat n).toNat = n := by
  have hv : Nat.isValidChar n := Or.inl h
  simp [Char.ofNat, hv, Char.toNat, Char.ofNatAux, UInt32.toNat, BitVec.toNat_ofNatLt]

theorem digitChar_toNat (d : Nat) (h : d < 10) : (digitChar d).toNat = 48 + d := by
  unfold digitChar
  exact toNat_ofNat_valid _ (by omega)

theorem digitsVal_append (l : List Char) (c : Char) :
    digitsVal (l ++ [c]) = 10 * digitsVal l + (c.toNat - 48) := by
  simp [digitsVal, List.foldl_append]

theorem natDigitsAux_spec (fuel : Nat) : ∀ n, n ≤ fuel →
    (∀ c ∈ natDigitsAux fuel n, 48 ≤ c.toNat ∧ c.toNat ≤ 57) ∧
    digitsVal (natDigitsAux fuel n) = n ∧ natDigitsAux fuel n ≠ [] := by
  induction fuel with
  | zero =>
    intro n hn
    have hn0 : n = 0 := by omega
    subst hn0
    refine ⟨?_, by simp [natDigitsAux, digitsVal, digitChar_toNat 0 (by omega)], by
      simp [natDigitsAux]⟩
    intro c hc
    simp only [natDigitsAux, List.mem_singleton] at hc
    subst hc
    rw [digitChar_toNat 0 (by omega)]
    omega
  | succ fuel ih =>
    intro n hn
    by_cases h : n < 10
    · refine ⟨?_, ?_, ?_⟩
      · intro c hc
        simp only [natDigitsAux, h, if_true] at hc
        rw [List.mem_singleton] at hc
        subst hc
        rw [digitChar_toNat n h]
        omega
      · simp [natDigitsAux, h, digitsVal, digitChar_toNat n h]
      · simp [natDigitsAux, h]
    · have hdiv : n / 10 ≤ fuel := by
        have := Nat.div_lt_self (show 0 < n by omega) (show 1 < 10 by omega)
        omega
      obtain ⟨ihd, ihv, ihne⟩ := ih (n / 10) hdiv
      refine ⟨?_, ?_, ?_⟩
      · intro c hc
        simp only [natDigitsAux, h, if_false, List.mem_append, List.mem_singleton] at hc
        rcases hc with hc | hc
        · exact ihd c hc
        · subst hc
          rw [digitChar_toNat _ (Nat.mod_lt _ (by omega))]
          omega
      · simp only [natDigitsAux, h, if_false, digitsVal_append, ihv,
          digitChar_toNat _ (Nat.mod_lt _ (by omega))]
        omega
      · simp [natDigitsAux, h]

theorem natDigits_digits (n : Nat) : ∀ c ∈ natDigits n, 48 ≤ c.toNat ∧ c.toNat ≤ 57 :=
  (natDigitsAux_spec n n (Nat.le_refl n)).1

theorem natDigits_ne_nil (n : Nat) : natDigits n ≠ [] :=
  (natDigitsAux_spec n n (Nat.le_refl n)).2.2

theorem digitsVal_natDigits (n : Nat) : digitsVal (natDigits n) = n :=
  (natDigitsAux_spec n n (Nat.le_refl n)).2.1

theorem atoi_natDigits (n : Nat) : atoi (natDigits n) = some ((n : Nat) : Int) := by
  obtain ⟨c, rest, hcr⟩ : ∃ c rest, natDigits n = c :: rest := by
    cases h : natDigits n with
    | nil => exact absurd h (natDigits_ne_nil n)
    | cons c rest => exact ⟨c, rest, rfl⟩
  have hd := natDigits_digits n
  rw [hcr] at hd
  have hc := hd c (by simp)
  have hplus : ¬ (c = '+') := by
    intro he
    rw [he] at hc
    revert hc
    decide
  have hminus : ¬ (c = '-') := by
    intro he
    rw [he] at hc
    revert hc
    decide
  have hall : (c :: rest).all isDigitCh = true := by
    rw [List.all_eq_true]
    intro x hx
    have hb := hd x hx
    simp only [isDigitCh, Bool.and_eq_true, decide_eq_true_eq]
    omega
  rw [hcr, atoi]
  simp only [hplus, hminus, if_false, List.isEmpty_cons, hall, if_true, Bool.false_eq_true,
    if_false]
  rw [← hcr, digitsVal_natDigits]
  simp

theorem toNat_le_of_isSpaceCh (c : Char) (h : isSpaceCh c = true) : c.toNat ≤ 32 := by
  simp only [isSpaceCh, Bool.or_eq_true, beq_iff_eq] at h
  rcases h with ((((h | h) | h) | h) | h) | h <;> subst h <;> decide

theorem isSpaceCh_false (c : Char) (h : 33 ≤ c.toNat) : isSpaceCh c = false := by
  cases hsp : isSpaceCh c with
  | false => rfl
  | true =>
    have := toNat_le_of_isSpaceCh c hsp
    omega

theorem dropWhile_eq_self_of (p : Char → Bool) (l : List Char)
    (h : ∀ c ∈ l, p c = false) : l.dropWhile p = l := by
  cases l with
  | nil => rfl
  | cons c rest =>
    rw [List.dropWhile_cons, h c (by simp)]
    simp

theorem trimSpace_eq_self (l : Str) (h : ∀ c ∈ l, isSpaceCh c = false) :
    trimSpace l = l := by
  unfold trimSpace
  rw [dropWhile_eq_self_of _ l h, dropWhile_eq_self_of _ l.reverse (by simpa using h),
    List.reverse_reverse]

theorem map_eq_self_of (f : Char → Char) (l : List Char) (h : ∀ c ∈ l, f c = c) :
    l.map f = l := by
  induction l with
  | nil => rfl
  | cons c rest ih =>
    rw [List.map_cons, h c (by simp), ih (fun a ha => h a (by simp [ha]))]

theorem roundtrip_core (n x y : Int) (hn : n ≤ 19) (hx0 : 0 ≤ x) (hxn : x < n)
    (hy0 : 0 ≤ y) (hyn : y < n) :
    gtpToPos (posToGTP x y n) n = Except.ok (x, y) := by
  have hx18 : x ≤ 18 := by omega
  set e : Int := if x ≥ 8 then 1 else 0 with he
  have he01 : (x < 8 ∧ e = 0) ∨ (8 ≤ x ∧ e = 1) := by
    rw [he]
    by_cases h8 : x ≥ 8
    · right
      rw [if_pos h8]
      omega
    · left
      rw [if_neg h8]
      omega
  set C : Char := Char.ofNat (65 + x + e).toNat with hCdef
  have hC : C.toNat = (65 + x + e).toNat := by
    rw [hCdef]
    exact toNat_ofNat_valid _ (by omega)
  have hCbound : 65 ≤ C.toNat ∧ C.toNat ≤ 84 := by
    rw [hC]
    omega
  set row : Int := n - y with hrowdef
  have hrow1 : 1 ≤ row := by omega
  have hrow19 : row ≤ 19 := by omega
  set D : Str := natDigits row.toNat with hDdef
  have hDdig : ∀ c ∈ D, 48 ≤ c.toNat ∧ c.toNat ≤ 57 := by
    rw [hDdef]
    exact natDigits_digits row.toNat
  have hDne : D ≠ [] := by
    rw [hDdef]
    exact natDigits_ne_nil row.toNat
  have hpos : posToGTP x y n = C :: D := by
    simp only [posToGTP, intDigits]
    rw [← he, ← hCdef, if_neg (show ¬ (n - y < 0) by omega), ← hrowdef, ← hDdef]
  -- upper-casing and trimming leave the encoded vertex unchanged
  have hupC : toUpperCh C = C := by
    unfold toUpperCh
    rw [if_neg (by omega)]
  have hupD : D.map toUpperCh = D := by
    apply map_eq_self_of
    intro c hc
    have := hDdig c hc
    unfold toUpperCh
    rw [if_neg (by omega)]
  have htrim : trimSpace ((C :: D).map toUpperCh) = C :: D := by
    rw [List.map_cons, hupC, hupD]
    apply trimSpace_eq_self
    intro c hc
    rcases List.mem_cons.mp hc with hc | hc
    · subst hc
      exact isSpaceCh_false _ (by omega)
    · exact isSpaceCh_false _ (by have := hDdig c hc; omega)
  -- the vertex is not a pass or resignation token
  have hnePass : ¬ (C :: D = "PASS".data) := by
    intro hEq
    have hD2 : D = ['A', 'S', 'S'] := (List.cons.injEq _ _ _ _ ▸ hEq).2
    have := hDdig 'A' (by rw [hD2]; simp)
    revert this
    decide
  have hneResign : ¬ (C :: D = "RESIGN".data) := by
    intro hEq
    have hD2 : D = ['E', 'S', 'I', 'G', 'N'] := (List.cons.injEq _ _ _ _ ▸ hEq).2
    have := hDdig 'E' (by rw [hD2]; simp)
    revert this
    decide
  have hDlen : 0 < D.length := List.length_pos.mpr hDne
  have hlen : ¬ ((C :: D).length < 2) := by
    simp only [List.length_cons]
    omega
  -- decode the column
  have hcol0 : byteSub C 65 = x + e := by
    unfold byteSub
    omega
  have hatoi : atoi D = some row := by
    rw [hDdef, atoi_natDigits]
    congr 1
    omega
  rw [gtpToPos, hpos, htrim, if_neg hnePass, if_neg hneResign, if_neg hlen]
  simp only [hcol0, hatoi]
  rw [if_neg (by omega)]
  have hcol : (if x + e > 7 then x + e - 1 else x + e) = x := by
    rcases he01 with ⟨h8, he0⟩ | ⟨h8, he1⟩
    · rw [he0, if_neg (by omega)]
      omega
    · rw [he1, if_pos (by omega)]
      omega
  rw [hcol, if_neg (by omega)]
  congr 2
  omega

/-- C1 (counterexample): the round trip is not valid for every board size.
On a 20x20 board the point (19, 0) encodes to the vertex U20, whose column
letter exceeds the T bound checked by gtpToPos, so decoding fails instead of
returning (19, 0). -/
theorem C1_roundtrip_counterexample :
    gtpToPos (posToGTP 19 0 20) 20 = Except.error "invalid column in vertex".data := by
  rfl

/-- C1 (amended): for every board size n up to 19 (covering the supported
sizes 9, 13 and 19) and every on-board pair (x, y), decoding the encoded
vertex returns the original pair with no error; gtpToPos maps a pass to the
sentinel (-1, -1) and a resignation to (-2, -2), and both sentinels are
distinct from every board point. -/
theorem C1_coordinate_roundtrip :
    (∀ n x y : Int, n ≤ 19 → 0 ≤ x → x < n → 0 ≤ y → y < n →
      gtpToPos (posToGTP x y n) n = Except.ok (x, y)) ∧
    (∀ n : Int, gtpToPos "pass".data n = Except.ok (-1, -1) ∧
      gtpToPos "resign".data n = Except.ok (-2, -2)) ∧
    (∀ x y : Int, 0 ≤ x → 0 ≤ y →
      (x, y) ≠ ((-1 : Int), (-1 : Int)) ∧ (x, y) ≠ ((-2 : Int), (-2 : Int))) := by
  refine ⟨roundtrip_core, fun n => ⟨rfl, rfl⟩, ?_⟩
  intro x y hx hy
  constructor <;> intro h <;> rw [Prod.mk.injEq] at h <;> omega

/-- C1 (witness): instantiation of the round trip at D4 on a 19x19 board. -/
theorem C1_coordinate_roundtrip_witness :
    gtpToPos (posToGTP 3 15 19) 19 = Except.ok (3, 15) :=
  C1_coordinate_roundtrip.1 19 3 15 (by decide) (by decide) (by decide) (by decide)
    (by decide)

/-- C6 (failing input): gtpToPos accepts the reserved skipped column letter I
and conflates it with the valid column H: both I1 and H1 on a 9x9 board decode
to the same in-range coordinate (7, 8) with no error, although the claim (and
the function's own documentation, which says the parsed columns are A to T
excluding I) requires a decode error for the reserved letter. -/
theorem C6_reserved_letter_conflated :
    gtpToPos "I1".data 9 = Except.ok (7, 8) ∧
    gtpToPos "H1".data 9 = Except.ok (7, 8) := by
  exact ⟨rfl, rfl⟩

/-! ## Boards

Boards are slices of slices of ints indexed board[y][x], with 0 empty,
1 black, 2 white.  Every write the Go code performs is dominated by a bounds
check (either its own or the engine's move validation), so the out-of-range
arms of the accessors below are never taken on the executions modelled here.
-/

/-- MakeBoard: an empty size x size board of zeros. -/
def makeBoard (size : Int) : List (List Int) :=
  List.replicate size.toNat (List.replicate size.toNat 0)

/-- Read board[y][x]. -/
def getCell (b : List (List Int)) (y x : Int) : Int :=
  ((b.getD y.toNat []).getD x.toNat 0)

/-- Write board[y][x] = v. -/
def setCell (b : List (List Int)) (y x v : Int) : List (List Int) :=
  b.set y.toNat ((b.getD y.toNat []).set x.toNat v)

/-! ## SGF writer (sgf/writer.go)

A GameRecord mirrors the Go struct.  Go keeps the komi as a float64 and
formats it with one decimal digit; the model carries the komi as a whole
number of tenths of a point, which is exact for every komi the application
uses, and formats it the same way.  The open file handle is modelled by the
fileOpen flag; flush produces the full byte content that the Go code writes
from offset zero after truncating, so the on-disk bytes after any successful
mutating call are exactly flushContent of the record. -/

structure GameRecord where
  boardSize : Int
  komiTenths : Nat
  playerBlack : Str
  playerWhite : Str
  date : Str
  result : Str
  moves : List Str
  setupBlack : List Str
  setupWhite : List Str
  fileOpen : Bool
deriving Repr, DecidableEq

/-- Go formatting of the komi with the percent-.1f verb, for a komi given in
tenths of a point. -/
def formatKomi (k : Nat) : Str := natDigits (k / 10) ++ '.' :: natDigits (k % 10)

/-- NewGameRecord: fresh record with header fields filled in; the player names
depend on which color the human plays. -/
def newGameRecord (boardSize : Int) (komiTenths : Nat) (playerColor engineLevel : Int)
    (date : Str) : GameRecord :=
  let human := "Player".data
  let eng := "GnuGo Level ".data ++ intDigits engineLevel
  { boardSize := boardSize
    komiTenths := komiTenths
    playerBlack := if playerColor = 1 then human else eng
    playerWhite := if playerColor = 1 then eng else human
    date := date
    result := ['?']
    moves := []
    setupBlack := []
    setupWhite := []
    fileOpen := true }

/-- sgfCoord: 0-indexed coordinates to an SGF letter pair, (0,0) to aa. -/
def sgfCoord (x y : Int) : Str :=
  [Char.ofNat (97 + x).toNat, Char.ofNat (97 + y).toNat]

/-- The move node AddMove appends: an empty bracket for a pass (x and y -1),
otherwise the letter-pair coordinate. -/
def moveNode (x y color : Int) : Str :=
  let colorChar : Char := if color = 2 then 'W' else 'B'
  if x = -1 ∧ y = -1 then [';', colorChar, '[', ']']
  else ';' :: colorChar :: '[' :: (sgfCoord x y ++ [']'])

/-- AddMove: append one move node (the Go method then flushes). -/
def addMove (r : GameRecord) (x y color : Int) : GameRecord :=
  { r with moves := r.moves ++ [moveNode x y color] }

/-- One row of AddSetupPosition's scan: collect black and white coordinates
left to right. -/
def rowSetup : List Int → Int → Int → List Str × List Str
  | [], _, _ => ([], [])
  | v :: rest, x, y =>
    let p := rowSetup rest (x + 1) y
    if v = 1 then (sgfCoord x y :: p.1, p.2)
    else if v = 2 then (p.1, sgfCoord x y :: p.2)
    else p

/-- AddSetupPosition's scan over the whole board, top row first. -/
def boardSetup : List (List Int) → Int → List Str × List Str
  | [], _ => ([], [])
  | row :: rest, y =>
    let p1 := rowSetup row 0 y
    let p2 := boardSetup rest (y + 1)
    (p1.1 ++ p2.1, p1.2 ++ p2.2)

/-- AddSetupPosition: replace the setup lists with a snapshot of the board
(the Go method then flushes). -/
def addSetupPosition (r : GameRecord) (board : List (List Int)) : GameRecord :=
  let p := boardSetup board 0
  { r with setupBlack := p.1, setupWhite := p.2 }

/-- UndoMoves: clamp n to the recorded length and drop the last n moves.
The result is none when the final slice expression would be out of bounds
(the model takes the slice capacity to be its length; for the n ≥ 0 regime
of the claim the bound always holds). -/
def undoMoves (r : GameRecord) (n : Int) : Option GameRecord :=
  let len : Int := r.moves.length
  let m : Int := if n > len then len else n
  if 0 ≤ len - m ∧ len - m ≤ len then
    some { r with moves := r.moves.take (len - m).toNat }
  else none

/-- Bracket every SGF value in the list. -/
def bracketAll (l : List Str) : Str :=
  (l.map (fun c => '[' :: c ++ [']'])).flatten

/-- flush: the complete SGF document the writer rewrites on every mutation;
root header line, optional setup node, move nodes, closing parenthesis. -/
def flushContent (r : GameRecord) : Str :=
  "(;GM[1]FF[4]CA[UTF-8]AP[termsuji-local:1.0]SZ[".data ++ intDigits r.boardSize
  ++ "]KM[".data ++ formatKomi r.komiTenths
  ++ "]PB[".data ++ r.playerBlack
  ++ "]PW[".data ++ r.playerWhite
  ++ "]DT[".data ++ r.date
  ++ "]RE[".data ++ r.result
  ++ "]\n".data
  ++ (if r.setupBlack ≠ [] ∨ r.setupWhite ≠ [] then
      ';' :: ((if r.setupBlack ≠ [] then "AB".data ++ bracketAll r.setupBlack else [])
        ++ (if r.setupWhite ≠ [] then "AW".data ++ bracketAll r.setupWhite else [])
        ++ "\n".data)
    else [])
  ++ r.moves.flatten
  ++ ")\n".data

/-- The optional setup node of the flushed document, named so that theorems
can speak about the document layout; identical to the corresponding segment
of flushContent. -/
def setupSegment (r : GameRecord) : Str :=
  if r.setupBlack ≠ [] ∨ r.setupWhite ≠ [] then
    ';' :: ((if r.setupBlack ≠ [] then "AB".data ++ bracketAll r.setupBlack else [])
      ++ (if r.setupWhite ≠ [] then "AW".data ++ bracketAll r.setupWhite else [])
      ++ "\n".data)
  else []

/-- flush fails only when the file handle has been closed. -/
def flush (r : GameRecord) : Except Str Str :=
  if r.fileOpen then Except.ok (flushContent r)
  else Except.error "file already closed".data

/-- C10: UndoMoves is total for every n ≥ 0: the clamp keeps the slice bound
in range, removing all moves when n exceeds the count and exactly the last n
otherwise. -/
theorem C10_undoMoves_total (r : GameRecord) (n : Int) (hn : 0 ≤ n) :
    ∃ s, undoMoves r n = some s ∧
      s.moves = r.moves.take (r.moves.length - n.toNat) ∧
      ((r.moves.length : Int) ≤ n → s.moves = []) ∧
      (n ≤ (r.moves.length : Int) →
        s.moves.length = r.moves.length - n.toNat ∧
        r.moves = s.moves ++ r.moves.drop (r.moves.length - n.toNat) ∧
        ((r.moves.drop (r.moves.length - n.toNat)).length : Int) = n) := by
  unfold undoMoves
  rw [if_pos (by constructor <;> split <;> omega)]
  refine ⟨_, rfl, ?_, ?_, ?_⟩
  · simp only
    congr 1
    split <;> omega
  · intro hle
    simp only
    rw [List.take_eq_nil_iff]
    left
    split <;> omega
  · intro hge
    refine ⟨?_, ?_, ?_⟩
    · simp only [List.length_take]
      split <;> omega
    · simp only
      rw [show ((r.moves.length : Int) - if n > (r.moves.length : Int) then
          (r.moves.length : Int) else n).toNat = r.moves.length - n.toNat by split <;> omega]
      exact (List.take_append_drop _ _).symm
    · simp only [List.length_drop]
      omega

/-- C10 (witness): undoing three moves of a two-move record empties it. -/
theorem C10_undoMoves_total_witness :
    ∃ s, undoMoves (addMove (addMove (newGameRecord 9 65 1 5 "2026-01-15".data) 4 4 1)
        2 2 2) 3 = some s ∧
      s.moves = [] := by
  obtain ⟨s, h1, h2, h3, _⟩ := C10_undoMoves_total
    (addMove (addMove (newGameRecord 9 65 1 5 "2026-01-15".data) 4 4 1) 2 2 2) 3
    (by decide)
  exact ⟨s, h1, h3 (by decide)⟩

/-! ## SGF reader (sgf/reader.go)

The reader's index loops are written as recursions on the remaining input;
loops whose progress depends on inner value-skipping get a fuel argument,
with fuel at least the input length at every top-level call (each iteration
consumes at least one character, so such fuel is never exhausted). -/

/-- The suffix following the first occurrence of the root opener, as found
by strings.Index(content, open-paren semicolon). -/
def afterOpen : Str → Option Str
  | '(' :: ';' :: rest => some rest
  | _ :: rest => afterOpen rest
  | [] => none

/-- Consume one bracketed property value after its opening bracket: skip over
backslash-escaped characters, stop after the closing bracket; returns the
value (without the closing bracket) and the rest. -/
def readPropValue : Str → Str × Str
  | [] => ([], [])
  | ']' :: rest => ([], rest)
  | '\\' :: c :: rest =>
    let p := readPropValue rest
    ('\\' :: c :: p.1, p.2)
  | c :: rest =>
    let p := readPropValue rest
    (c :: p.1, p.2)

/-- As readPropValue, but returning the consumed text verbatim (including the
closing bracket when present), for slicing whole nodes. -/
def readValueRaw : Str → Str × Str
  | [] => ([], [])
  | ']' :: rest => ([']'], rest)
  | '\\' :: c :: rest =>
    let p := readValueRaw rest
    ('\\' :: c :: p.1, p.2)
  | c :: rest =>
    let p := readValueRaw rest
    (c :: p.1, p.2)

/-- Replace-or-append an entry in the property map (last value wins, as map
assignment does in Go). -/
def upsert : List (Str × Str) → Str → Str → List (Str × Str)
  | [], k, v => [(k, v)]
  | kv :: rest, k, v =>
    if kv.1 = k then (k, v) :: rest else kv :: upsert rest k v

/-- Look a key up in the property map. -/
def lookupProp : List (Str × Str) → Str → Option Str
  | [], _ => none
  | kv :: rest, k => if kv.1 = k then some kv.2 else lookupProp rest k

/-- Is the character an uppercase ASCII letter (a property-key character). -/
def isUpperCh (c : Char) : Bool := 65 ≤ c.toNat && c.toNat ≤ 90

/-- Property-node whitespace skipped by extractProps. -/
def isWsCh (c : Char) : Bool := c == ' ' || c == '\n' || c == '\r' || c == '\t'

/-- The value loop of extractProps: read consecutive bracketed values for one
key, assigning each into the map. -/
def readValues : Nat → Str → Str → List (Str × Str) → Str × List (Str × Str)
  | 0, node, _, props => (node, props)
  | fuel + 1, node, key, props =>
    match node with
    | '[' :: rest =>
      let p := readPropValue rest
      readValues fuel p.2 key (upsert props key p.1)
    | _ => (node, props)

/-- extractProps: scan a node for KEY[value] groups. -/
def extractPropsLoop : Nat → Str → List (Str × Str) → List (Str × Str)
  | 0, _, props => props
  | fuel + 1, node, props =>
    let node1 := node.dropWhile isWsCh
    match node1 with
    | [] => props
    | c :: rest =>
      if isUpperCh c then
        let key := (c :: rest).takeWhile isUpperCh
        let after := (c :: rest).dropWhile isUpperCh
        let p := readValues (after.length + 1) after key props
        extractPropsLoop fuel p.1 p.2
      else extractPropsLoop fuel rest props

/-- parseProperties: extract the KEY[value] pairs of the root node, which
runs from just after the opener to the next semicolon or closing parenthesis
(or the end of the content). -/
def parseProperties (content : Str) : List (Str × Str) :=
  match afterOpen content with
  | none => []
  | some rest =>
    let root := rest.takeWhile (fun c => !(c == ';') && !(c == ')'))
    extractPropsLoop (root.length + 1) root []

/-- countMoves: count semicolon-B-bracket and semicolon-W-bracket patterns
anywhere in the content (the Go loop checks the two following characters when
they exist, exactly as the inner match does here). -/
def countMoves : Str → Nat
  | [] => 0
  | c :: rest =>
    (if c = ';' then
      match rest with
      | b :: c2 :: _ => if (b = 'B' ∨ b = 'W') ∧ c2 = '[' then 1 else 0
      | _ => 0
    else 0) + countMoves rest

/-- Skip the root node: advance to the first semicolon at bracket level
zero, skipping bracketed values. -/
def skipRootLoop : Nat → Str → Str
  | 0, s => s
  | _ + 1, [] => []
  | fuel + 1, s =>
    match s with
    | [] => []
    | ';' :: rest => ';' :: rest
    | '[' :: rest => skipRootLoop fuel (readValueRaw rest).2
    | _ :: rest => skipRootLoop fuel rest

/-- Read one node's text after its leading semicolon: everything up to the
next top-level semicolon or closing parenthesis, bracketed values skipped
verbatim. -/
def readNodeLoop : Nat → Str → Str × Str
  | 0, s => ([], s)
  | _ + 1, [] => ([], [])
  | fuel + 1, s =>
    match s with
    | [] => ([], [])
    | ';' :: rest => ([], ';' :: rest)
    | ')' :: rest => ([], ')' :: rest)
    | '[' :: rest =>
      let v := readValueRaw rest
      let p := readNodeLoop fuel v.2
      ('[' :: v.1 ++ p.1, p.2)
    | c :: rest =>
      let p := readNodeLoop fuel rest
      (c :: p.1, p.2)

/-- The node-collection loop of parseNodes. -/
def parseNodesLoop : Nat → Str → List Str
  | 0, _ => []
  | _ + 1, [] => []
  | fuel + 1, s =>
    match s with
    | [] => []
    | ';' :: rest =>
      let p := readNodeLoop (rest.length + 1) rest
      (';' :: p.1) :: parseNodesLoop fuel p.2
    | _ :: rest => parseNodesLoop fuel rest

/-- parseNodes: all node strings after the root node. -/
def parseNodes (content : Str) : List Str :=
  match afterOpen content with
  | none => []
  | some rest =>
    let afterRoot := skipRootLoop (rest.length + 1) rest
    parseNodesLoop (afterRoot.length + 1) afterRoot

/-- parseMoveNode: extract (color, x, y) from a move node such as
semicolon B bracket pd bracket; an empty bracket is a pass (-1, -1);
anything that is not a B or W node with a bracketed value of length zero or
two is not a move node.  Letter pairs decode by byte arithmetic from the
letter a. -/
def parseMoveNode (node : Str) : Option (Int × Int × Int) :=
  let n := trimSpace node
  match n with
  | ';' :: ch :: _ =>
    if ch = 'B' ∨ ch = 'W' then
      let color : Int := if ch = 'W' then 2 else 1
      match n.findIdx? (fun c => c == '['), n.findIdx? (fun c => c == ']') with
      | some bs, some be =>
        if be ≤ bs then none
        else
          let coord := (n.take be).drop (bs + 1)
          if coord = [] then some (color, -1, -1)
          else
            match coord with
            | [c1, c2] => some (color, byteSub c1 97, byteSub c2 97)
            | _ => none
      | _, _ => none
    else none
  | _ => none

/-- The value loop of applySetup for one AB or AW key: read consecutive
bracketed coordinate values and place stones.  Mirrors the Go loop exactly,
including its quirks: a value is only read when at least two characters
precede the closing bracket, and the trailing skip advances a single
character. -/
def applySetupVals : Nat → Str → List (List Int) → Int → Int →
    Str × List (List Int)
  | 0, s, b, _, _ => (s, b)
  | fuel + 1, s, b, size, color =>
    match s with
    | '[' :: rest =>
      match rest with
      | _c1 :: c2 :: _ =>
        if c2 = ']' then
          applySetupVals fuel (rest.drop 1) b size color
        else
          let coord := rest.takeWhile (fun c => !(c == ']'))
          let rest2 := rest.dropWhile (fun c => !(c == ']'))
          let b2 :=
            match coord with
            | [a1, a2] =>
              let x := byteSub a1 97
              let y := byteSub a2 97
              if 0 ≤ x ∧ x < size ∧ 0 ≤ y ∧ y < size then setCell b y x color else b
            | _ => b
          applySetupVals fuel (rest2.drop 1) b2 size color
      | _ => applySetupVals fuel (rest.drop 1) b size color
    | _ => (s, b)

/-- The content scan of applySetup: find each AB or AW key anywhere in the
content and apply its values. -/
def applySetupScan : Nat → Str → List (List Int) → Int → List (List Int)
  | 0, _, b, _ => b
  | _ + 1, [], b, _ => b
  | fuel + 1, s, b, size =>
    match s with
    | [] => b
    | 'A' :: c :: rest =>
      if c = 'B' ∨ c = 'W' then
        let color : Int := if c = 'W' then 2 else 1
        let p := applySetupVals (rest.length + 1) rest b size color
        applySetupScan fuel p.1 p.2 size
      else applySetupScan fuel (c :: rest) b size
    | _ :: rest => applySetupScan fuel rest b size

/-- applySetup: no-op without a root opener, otherwise scan from the opener
onward (the opener's own two characters match no key). -/
def applySetup (content : Str) (b : List (List Int)) (size : Int) :
    List (List Int) :=
  match afterOpen content with
  | none => b
  | some rest => applySetupScan (rest.length + 3) ('(' :: ';' :: rest) b size

/-! ### Capture resolution (liberty flood fill) -/

/-- Read the visited flag at (y, x). -/
def getVis (v : List (List Bool)) (y x : Int) : Bool :=
  ((v.getD y.toNat []).getD x.toNat false)

/-- Set the visited flag at (y, x). -/
def setVis (v : List (List Bool)) (y x : Int) : List (List Bool) :=
  v.set y.toNat ((v.getD y.toNat []).set x.toNat true)

/-- Fresh all-false visited matrix. -/
def mkVisited (size : Int) : List (List Bool) :=
  List.replicate size.toNat (List.replicate size.toNat false)

/-- The depth-first liberty search of hasLiberties, carrying the visited
matrix; the fuel bounds recursion depth, which cannot exceed the group size
plus one because every descent first marks an unvisited cell. -/
def hasLibertiesDFS : Nat → List (List Int) → List (List Bool) → Int → Int →
    Int → Int → Bool × List (List Bool)
  | 0, _, vis, _, _, _, _ => (false, vis)
  | fuel + 1, board, vis, size, x, y, color =>
    if x < 0 ∨ x ≥ size ∨ y < 0 ∨ y ≥ size then (false, vis)
    else if getVis vis y x then (false, vis)
    else if getCell board y x = 0 then (true, vis)
    else if getCell board y x ≠ color then (false, vis)
    else
      let vis := setVis vis y x
      let p1 := hasLibertiesDFS fuel board vis size x (y - 1) color
      if p1.1 then (true, p1.2)
      else
        let p2 := hasLibertiesDFS fuel board p1.2 size x (y + 1) color
        if p2.1 then (true, p2.2)
        else
          let p3 := hasLibertiesDFS fuel board p2.2 size (x - 1) y color
          if p3.1 then (true, p3.2)
          else hasLibertiesDFS fuel board p3.2 size (x + 1) y color

/-- hasLiberties: flood-fill from (x, y) looking for an empty neighbor. -/
def hasLiberties (board : List (List Int)) (size x y color : Int) : Bool :=
  (hasLibertiesDFS (size * size + 1).toNat board (mkVisited size) size x y color).1

/-- removeGroup: remove every stone of the group at (x, y); fuel bounds the
recursion depth, which cannot exceed the group size plus one because every
descent first clears a stone. -/
def removeGroupAux : Nat → List (List Int) → Int → Int → Int → Int →
    List (List Int)
  | 0, b, _, _, _, _ => b
  | fuel + 1, b, size, x, y, color =>
    if x < 0 ∨ x ≥ size ∨ y < 0 ∨ y ≥ size then b
    else if getCell b y x ≠ color then b
    else
      let b := setCell b y x 0
      let b := removeGroupAux fuel b size x (y - 1) color
      let b := removeGroupAux fuel b size x (y + 1) color
      let b := removeGroupAux fuel b size (x - 1) y color
      removeGroupAux fuel b size (x + 1) y color

/-- removeGroup with sufficient fuel for any position on the board. -/
def removeGroup (b : List (List Int)) (size x y color : Int) : List (List Int) :=
  removeGroupAux (size * size + 1).toNat b size x y color

/-- RemoveCaptures: for each of the four neighbors of the placed stone, if it
holds an opponent stone whose group has no liberties, remove that group. -/
def removeCaptures (b : List (List Int)) (size x y color : Int) :
    List (List Int) :=
  let opponent : Int := if color = 1 then 2 else 1
  [((0 : Int), (-1 : Int)), (0, 1), (-1, 0), (1, 0)].foldl
    (fun b d =>
      let nx := x + d.1
      let ny := y + d.2
      if nx < 0 ∨ nx ≥ size ∨ ny < 0 ∨ ny ≥ size then b
      else if getCell b ny nx = opponent then
        if ¬ (hasLiberties b size nx ny opponent = true) then
          removeGroup b size nx ny opponent
        else b
      else b) b

/-! ### Reader entry points -/

/-- Header metadata parsed from an SGF file.  Go parses the KM property into
a float64; no claim depends on its numeric value, so the model keeps the raw
property (absent when the file has none, in which case Go keeps komi 0). -/
structure GameInfo where
  boardSize : Int
  komiRaw : Option Str
  playerBlack : Str
  playerWhite : Str
  date : Str
  result : Str
  moveCount : Nat
deriving Repr, DecidableEq

/-- The board size parsed from the property map, defaulting to 19 when the
SZ property is missing or fails to parse. -/
def sizeFromProps (props : List (Str × Str)) : Int :=
  match lookupProp props "SZ".data with
  | some v =>
    match atoi v with
    | some n => n
    | none => 19
  | none => 19

/-- ParseHeader on file contents: total, every field defaulted when its
property is missing. -/
def parseHeaderContent (content : Str) : GameInfo :=
  let props := parseProperties content
  { boardSize := sizeFromProps props
    komiRaw := lookupProp props "KM".data
    playerBlack := (lookupProp props "PB".data).getD []
    playerWhite := (lookupProp props "PW".data).getD []
    date := (lookupProp props "DT".data).getD []
    result := (lookupProp props "RE".data).getD []
    moveCount := countMoves content }

/-- ParseHeader: the only error path in the Go function is the file read,
modelled by the file being absent. -/
def parseHeader (file : Option Str) : Except Str GameInfo :=
  match file with
  | none => Except.error "read error".data
  | some content => Except.ok (parseHeaderContent content)

/-- ReplayToEnd on file contents: apply setup stones, then each move node in
order with capture resolution, counting move nodes (passes and off-board
coordinates count but place nothing). -/
def replayToEndContent (content : Str) : List (List Int) × Int :=
  let props := parseProperties content
  let boardSize := sizeFromProps props
  let board := makeBoard boardSize
  let board := applySetup content board boardSize
  let nodes := parseNodes content
  nodes.foldl
    (fun acc node =>
      match parseMoveNode node with
      | none => acc
      | some (color, x, y) =>
        let mc := acc.2 + 1
        if x = -1 ∧ y = -1 then (acc.1, mc)
        else if x < 0 ∨ x ≥ boardSize ∨ y < 0 ∨ y ≥ boardSize then (acc.1, mc)
        else
          let b := setCell acc.1 y x color
          (removeCaptures b boardSize x y color, mc))
    (board, 0)

/-- ReplayToEnd: as with ParseHeader, only the file read can fail. -/
def replayToEnd (file : Option Str) : Except Str (List (List Int) × Int) :=
  match file with
  | none => Except.error "read error".data
  | some content => Except.ok (replayToEndContent content)

/-- C5 (counterexample): on contents that are not a well-formed game record
(no root-node opener at all), ParseHeader succeeds with defaulted header
metadata and ReplayToEnd succeeds with an empty defaulted 19x19 board; the
claimed parse-error failure never happens. -/
theorem C5_no_parse_error_counterexample :
    parseHeader (some "this is not an SGF file".data) = Except.ok
      { boardSize := 19, komiRaw := none, playerBlack := [], playerWhite := [],
        date := [], result := [], moveCount := 0 } ∧
    replayToEnd (some "this is not an SGF file".data) =
      Except.ok (makeBoard 19, 0) := by
  constructor
  · rfl
  · rfl

/-- C5 (amended): for every file whose contents lack the root-node opener,
ParseHeader and ReplayToEnd succeed without error, returning defaulted header
metadata (board size 19, no komi property, empty names and result, a move
count from the raw scan) and an empty default-sized board with zero moves;
a parse error is never raised, only a failed file read fails the calls. -/
theorem C5_malformed_returns_defaults (content : Str)
    (h : afterOpen content = none) :
    parseHeader (some content) = Except.ok
      { boardSize := 19, komiRaw := none, playerBlack := [], playerWhite := [],
        date := [], result := [], moveCount := countMoves content } ∧
    replayToEnd (some content) = Except.ok (makeBoard 19, 0) := by
  constructor
  · simp [parseHeader, parseHeaderContent, parseProperties, h, sizeFromProps,
      lookupProp]
  · simp [replayToEnd, replayToEndContent, parseProperties, parseNodes,
      applySetup, h, sizeFromProps, lookupProp]

/-- C5 (witness): instantiation of the amended claim on a concrete
non-record file. -/
theorem C5_malformed_returns_defaults_witness :
    parseHeader (some "hello".data) = Except.ok
      { boardSize := 19, komiRaw := none, playerBlack := [], playerWhite := [],
        date := [], result := [], moveCount := countMoves "hello".data } ∧
    replayToEnd (some "hello".data) = Except.ok (makeBoard 19, 0) :=
  C5_malformed_returns_defaults "hello".data (by rfl)

/-- C7: the concrete capture scenario.  On an empty 9x9 board, black (0,0),
white (1,0), black (2,0), black (1,1) with capture resolution after each
placement leaves (1,0) empty, the three black stones intact, and every other
intersection empty. -/
theorem C7_capture_concrete :
    (let b0 := makeBoard 9
     let b1 := removeCaptures (setCell b0 0 0 1) 9 0 0 1
     let b2 := removeCaptures (setCell b1 0 1 2) 9 1 0 2
     let b3 := removeCaptures (setCell b2 0 2 1) 9 2 0 1
     removeCaptures (setCell b3 1 1 1) 9 1 1 1) =
    [[1, 0, 1, 0, 0, 0, 0, 0, 0],
     [0, 1, 0, 0, 0, 0, 0, 0, 0],
     [0, 0, 0, 0, 0, 0, 0, 0, 0],
     [0, 0, 0, 0, 0, 0, 0, 0, 0],
     [0, 0, 0, 0, 0, 0, 0, 0, 0],
     [0, 0, 0, 0, 0, 0, 0, 0, 0],
     [0, 0, 0, 0, 0, 0, 0, 0, 0],
     [0, 0, 0, 0, 0, 0, 0, 0, 0],
     [0, 0, 0, 0, 0, 0, 0, 0, 0]] := by
  rfl

/-! ### C4: writer crash safety

countMoves scans for a semicolon followed by B or W followed by an opening
bracket.  The flushed document is the header (whose only semicolon is the
root opener, followed by GM), optionally a setup node, the move nodes (each
of which starts with exactly one counted pattern and contains no other
semicolon), and the closing parenthesis; so the count is exactly the number
of recorded moves. -/

/-- A character other than a semicolon contributes nothing to the count. -/
theorem countMoves_cons_ne (c : Char) (l : Str) (h : ¬ c = ';') :
    countMoves (c :: l) = countMoves l := by
  have hu : countMoves (c :: l) = (if c = ';' then
      match l with
      | b :: c2 :: _ => if (b = 'B' ∨ b = 'W') ∧ c2 = '[' then 1 else 0
      | _ => 0
    else 0) + countMoves l := rfl
  rw [hu, if_neg h, Nat.zero_add]

/-- A semicolon not followed by B or W contributes nothing. -/
theorem countMoves_cons_notBW (c a : Char) (t : Str) (ha : ¬ (a = 'B' ∨ a = 'W')) :
    countMoves (c :: a :: t) = countMoves (a :: t) := by
  cases t with
  | nil =>
    have hu : countMoves (c :: [a]) = (if c = ';' then 0 else 0) + countMoves [a] := rfl
    rw [hu, ite_self, Nat.zero_add]
  | cons b t2 =>
    have hu : countMoves (c :: a :: b :: t2) =
        (if c = ';' then if (a = 'B' ∨ a = 'W') ∧ b = '[' then 1 else 0 else 0) +
          countMoves (a :: b :: t2) := rfl
    rw [hu, if_neg (show ¬ ((a = 'B' ∨ a = 'W') ∧ b = '[') from fun hh => ha hh.1),
      ite_self, Nat.zero_add]

/-- A semicolon whose second follower is not an opening bracket contributes
nothing. -/
theorem countMoves_cons_notBracket (c a b : Char) (t : Str) (hb : ¬ b = '[') :
    countMoves (c :: a :: b :: t) = countMoves (a :: b :: t) := by
  have hu : countMoves (c :: a :: b :: t) =
      (if c = ';' then if (a = 'B' ∨ a = 'W') ∧ b = '[' then 1 else 0 else 0) +
        countMoves (a :: b :: t) := rfl
  rw [hu, if_neg (show ¬ ((a = 'B' ∨ a = 'W') ∧ b = '[') from fun hh => hb hh.2),
      ite_self, Nat.zero_add]

/-- The head of a move node is counted exactly once. -/
theorem countMoves_move_head (C : Char) (l : Str) (hC : C = 'B' ∨ C = 'W') :
    countMoves (';' :: C :: '[' :: l) = 1 + countMoves (C :: '[' :: l) := by
  have hu : countMoves (';' :: C :: '[' :: l) =
      (if (';' : Char) = ';' then
        if (C = 'B' ∨ C = 'W') ∧ ('[' : Char) = '[' then 1 else 0 else 0) +
        countMoves (C :: '[' :: l) := rfl
  rw [hu, if_pos rfl, if_pos ⟨hC, rfl⟩]

/-- The string contains no semicolon. -/
def semiFree (l : Str) : Prop := ∀ c ∈ l, ¬ c = ';'

instance (l : Str) : Decidable (semiFree l) := by
  unfold semiFree
  infer_instance

theorem semiFree_append (a b : Str) (ha : semiFree a) (hb : semiFree b) :
    semiFree (a ++ b) := by
  intro c hc
  rcases List.mem_append.mp hc with h | h
  · exact ha c h
  · exact hb c h

theorem semiFree_natDigits (n : Nat) : semiFree (natDigits n) := by
  intro c hc
  intro he
  have hd := natDigits_digits n c hc
  rw [he] at hd
  revert hd
  decide

theorem semiFree_intDigits (i : Int) : semiFree (intDigits i) := by
  unfold intDigits
  split
  · intro c hc
    rcases List.mem_cons.mp hc with h | h
    · subst h
      decide
    · exact semiFree_natDigits _ c h
  · exact semiFree_natDigits _

theorem semiFree_formatKomi (k : Nat) : semiFree (formatKomi k) := by
  unfold formatKomi
  refine semiFree_append _ _ (semiFree_natDigits _) ?_
  intro c hc
  rcases List.mem_cons.mp hc with h | h
  · subst h
    decide
  · exact semiFree_natDigits _ c h

/-- A semicolon-free prefix contributes nothing to the count. -/
theorem countMoves_append_semiFree (h : Str) (hs : semiFree h) : ∀ t : Str,
    countMoves (h ++ t) = countMoves t := by
  induction h with
  | nil =>
    intro t
    rfl
  | cons c h2 ih =>
    intro t
    rw [List.cons_append, countMoves_cons_ne c _ (hs c (by simp)),
      ih (fun a ha => hs a (by simp [ha]))]

/-- The shape of every node AddMove can produce: a semicolon, a B or W, and
a bracketed value of zero or two characters. -/
def goodNode (nd : Str) : Prop :=
  (∃ C xc yc, (C = 'B' ∨ C = 'W') ∧ nd = [';', C, '[', xc, yc, ']']) ∨
  (∃ C, (C = 'B' ∨ C = 'W') ∧ nd = [';', C, '[', ']'])

/-- Every good node contributes exactly one to the count, whatever its
coordinate characters are and whatever follows. -/
theorem countMoves_goodNode (nd t : Str) (h : goodNode nd) :
    countMoves (nd ++ t) = 1 + countMoves t := by
  rcases h with ⟨C, xc, yc, hC, hnd⟩ | ⟨C, hC, hnd⟩
  · subst hnd
    have hCne : ¬ C = ';' := by
      rcases hC with h | h <;> subst h <;> decide
    rw [show [';', C, '[', xc, yc, ']'] ++ t =
        ';' :: C :: '[' :: (xc :: yc :: ']' :: t) by simp,
      countMoves_move_head C _ hC, countMoves_cons_ne C _ hCne,
      countMoves_cons_ne '[' _ (by decide),
      countMoves_cons_notBracket xc yc ']' t (by decide),
      countMoves_cons_notBW yc ']' t (by decide),
      countMoves_cons_ne ']' _ (by decide)]
  · subst hnd
    have hCne : ¬ C = ';' := by
      rcases hC with h | h <;> subst h <;> decide
    rw [show [';', C, '[', ']'] ++ t = ';' :: C :: '[' :: (']' :: t) by simp,
      countMoves_move_head C _ hC, countMoves_cons_ne C _ hCne,
      countMoves_cons_ne '[' _ (by decide), countMoves_cons_ne ']' _ (by decide)]

/-- The move node of a triple, as AddMove encodes it. -/
def nodeOfMove (m : Int × Int × Int) : Str := moveNode m.1 m.2.1 m.2.2

theorem moveNode_good (x y color : Int) : goodNode (moveNode x y color) := by
  simp only [moveNode]
  set C : Char := if color = 2 then 'W' else 'B' with hC
  have hCbw : C = 'B' ∨ C = 'W' := by
    rw [hC]
    split
    · right
      rfl
    · left
      rfl
  by_cases hp : x = -1 ∧ y = -1
  · rw [if_pos hp]
    right
    exact ⟨C, hCbw, rfl⟩
  · rw [if_neg hp]
    left
    exact ⟨C, Char.ofNat (97 + x).toNat, Char.ofNat (97 + y).toNat, hCbw,
      by simp [sgfCoord]⟩

/-- A run of good nodes contributes its length to the count. -/
theorem countMoves_flatten (nodes : List Str) (h : ∀ nd ∈ nodes, goodNode nd) :
    ∀ t : Str, countMoves (nodes.flatten ++ t) = nodes.length + countMoves t := by
  induction nodes with
  | nil =>
    intro t
    simp
  | cons nd rest ih =>
    intro t
    rw [List.flatten_cons, List.append_assoc, countMoves_goodNode nd _ (h nd (by simp)),
      ih (fun a ha => h a (by simp [ha])) t, List.length_cons]
    omega

/-- A sequence of AddMove calls on a record. -/
def applyMoves (r : GameRecord) (ms : List (Int × Int × Int)) : GameRecord :=
  ms.foldl (fun r m => addMove r m.1 m.2.1 m.2.2) r

theorem applyMoves_eq (ms : List (Int × Int × Int)) : ∀ r : GameRecord,
    applyMoves r ms = { r with moves := r.moves ++ ms.map nodeOfMove } := by
  induction ms with
  | nil =>
    intro r
    simp [applyMoves]
  | cons m ms ih =>
    intro r
    rw [show applyMoves r (m :: ms) = applyMoves (addMove r m.1 m.2.1 m.2.2) ms from rfl,
      ih]
    simp [addMove, nodeOfMove]

/-- flushContent, written as one right-nested append chain with the setup
node as its named segment. -/
theorem flushContent_split (r : GameRecord) :
    flushContent r = "(;GM[1]FF[4]CA[UTF-8]AP[termsuji-local:1.0]SZ[".data
      ++ (intDigits r.boardSize ++ ("]KM[".data ++ (formatKomi r.komiTenths
      ++ ("]PB[".data ++ (r.playerBlack ++ ("]PW[".data ++ (r.playerWhite
      ++ ("]DT[".data ++ (r.date ++ ("]RE[".data ++ (r.result ++ ("]\n".data
      ++ (setupSegment r ++ (r.moves.flatten ++ ")\n".data)))))))))))))) := by
  unfold flushContent setupSegment
  simp [List.append_assoc]

/-- A run of bracketed two-character values contributes nothing to the
count: no position inside a bracket group can start the three-character
pattern, whatever the value characters are. -/
theorem countMoves_bracketAll (coords : List Str)
    (h : ∀ c ∈ coords, c.length = 2) :
    ∀ X : Str, countMoves (bracketAll coords ++ X) = countMoves X := by
  induction coords with
  | nil =>
    intro X
    rfl
  | cons c cs ih =>
    intro X
    obtain ⟨a, b, hc⟩ := List.length_eq_two.mp (h c (by simp))
    subst hc
    have hstep : bracketAll ([a, b] :: cs) ++ X
        = '[' :: a :: b :: ']' :: (bracketAll cs ++ X) := rfl
    rw [hstep, countMoves_cons_ne '[' _ (by decide),
      countMoves_cons_notBracket a b ']' _ (by decide),
      countMoves_cons_notBW b ']' _ (by decide),
      countMoves_cons_ne ']' _ (by decide),
      ih (fun d hd => h d (by simp [hd])) X]

/-- The setup node contributes nothing to the count: its semicolon is
followed by the letter A, and its bracketed coordinates are two-character
values. -/
theorem countMoves_setupSegment (r : GameRecord)
    (hsb : ∀ c ∈ r.setupBlack, c.length = 2)
    (hsw : ∀ c ∈ r.setupWhite, c.length = 2) :
    ∀ X : Str, countMoves (setupSegment r ++ X) = countMoves X := by
  intro X
  unfold setupSegment
  by_cases hb : r.setupBlack = []
  · by_cases hw : r.setupWhite = []
    · rw [if_neg (by simp [hb, hw])]
      rfl
    · rw [if_pos (Or.inr hw), if_neg (by simp [hb]), if_pos hw]
      simp [countMoves, List.append_assoc, countMoves_bracketAll r.setupWhite hsw]
  · by_cases hw : r.setupWhite = []
    · rw [if_pos (Or.inl hb), if_pos hb, if_neg (by simp [hw])]
      simp [countMoves, List.append_assoc, countMoves_bracketAll r.setupBlack hsb]
    · rw [if_pos (Or.inl hb), if_pos hb, if_pos hw]
      simp [countMoves, List.append_assoc, countMoves_bracketAll r.setupBlack hsb,
        countMoves_bracketAll r.setupWhite hsw]

/-- Every coordinate a row scan of AddSetupPosition records is a
two-character pair. -/
theorem rowSetup_coord_len (row : List Int) : ∀ x y : Int,
    (∀ c ∈ (rowSetup row x y).1, c.length = 2) ∧
    (∀ c ∈ (rowSetup row x y).2, c.length = 2) := by
  induction row with
  | nil =>
    intro x y
    constructor <;> intro c hc <;> simp [rowSetup] at hc
  | cons v rest ih =>
    intro x y
    obtain ⟨ih1, ih2⟩ := ih (x + 1) y
    by_cases h1 : v = 1
    · constructor
      · intro c hc
        rw [show (rowSetup (v :: rest) x y).1
            = sgfCoord x y :: (rowSetup rest (x + 1) y).1 from by
          simp [rowSetup, h1]] at hc
        rcases List.mem_cons.mp hc with rfl | hc
        · rfl
        · exact ih1 c hc
      · intro c hc
        rw [show (rowSetup (v :: rest) x y).2 = (rowSetup rest (x + 1) y).2 from by
          simp [rowSetup, h1]] at hc
        exact ih2 c hc
    · by_cases h2 : v = 2
      · constructor
        · intro c hc
          rw [show (rowSetup (v :: rest) x y).1 = (rowSetup rest (x + 1) y).1 from by
            simp [rowSetup, h1, h2]] at hc
          exact ih1 c hc
        · intro c hc
          rw [show (rowSetup (v :: rest) x y).2
              = sgfCoord x y :: (rowSetup rest (x + 1) y).2 from by
            simp [rowSetup, h1, h2]] at hc
          rcases List.mem_cons.mp hc with rfl | hc
          · rfl
          · exact ih2 c hc
      · constructor
        · intro c hc
          rw [show (rowSetup (v :: rest) x y).1 = (rowSetup rest (x + 1) y).1 from by
            simp [rowSetup, h1, h2]] at hc
          exact ih1 c hc
        · intro c hc
          rw [show (rowSetup (v :: rest) x y).2 = (rowSetup rest (x + 1) y).2 from by
            simp [rowSetup, h1, h2]] at hc
          exact ih2 c hc

theorem boardSetup_coord_len (board : List (List Int)) : ∀ y : Int,
    (∀ c ∈ (boardSetup board y).1, c.length = 2) ∧
    (∀ c ∈ (boardSetup board y).2, c.length = 2) := by
  induction board with
  | nil =>
    intro y
    constructor <;> intro c hc <;> simp [boardSetup] at hc
  | cons row rest ih =>
    intro y
    obtain ⟨ih1, ih2⟩ := ih (y + 1)
    obtain ⟨hr1, hr2⟩ := rowSetup_coord_len row 0 y
    constructor
    · intro c hc
      rw [show (boardSetup (row :: rest) y).1
          = (rowSetup row 0 y).1 ++ (boardSetup rest (y + 1)).1 from by
        simp [boardSetup]] at hc
      rcases List.mem_append.mp hc with hc | hc
      · exact hr1 c hc
      · exact ih1 c hc
    · intro c hc
      rw [show (boardSetup (row :: rest) y).2
          = (rowSetup row 0 y).2 ++ (boardSetup rest (y + 1)).2 from by
        simp [boardSetup]] at hc
      rcases List.mem_append.mp hc with hc | hc
      · exact hr2 c hc
      · exact ih2 c hc

/-- Records produced by a mid-game AddSetupPosition (the toggle-recording
path) satisfy the setup-coordinate hypothesis of the crash-safety theorem
for any board. -/
theorem addSetupPosition_coord_len (r : GameRecord) (board : List (List Int)) :
    (∀ c ∈ (addSetupPosition r board).setupBlack, c.length = 2) ∧
    (∀ c ∈ (addSetupPosition r board).setupWhite, c.length = 2) := by
  obtain ⟨h1, h2⟩ := boardSetup_coord_len board 0
  exact ⟨fun c hc => h1 c hc, fun c hc => h2 c hc⟩

set_option maxHeartbeats 2000000 in
/-- C4: for every open GameRecord whose fields satisfy the invariants every
record the program creates or reopens maintains — player names, date and
result texts free of semicolons (all are produced from fixed templates or
the result normalizer's vocabulary), move nodes of the shape AddMove and the
record parsers produce, and two-character setup coordinates (the only kind
AddSetupPosition or the setup parser ever records) — and every sequence of
AddMove calls, the flushed bytes parse via ParseHeader and the reported
MoveCount equals the total number of moves recorded so far. -/
theorem C4_writer_crash_safety (r : GameRecord)
    (hpb : semiFree r.playerBlack) (hpw : semiFree r.playerWhite)
    (hdate : semiFree r.date) (hres : semiFree r.result)
    (hmoves : ∀ nd ∈ r.moves, goodNode nd)
    (hsb : ∀ c ∈ r.setupBlack, c.length = 2)
    (hsw : ∀ c ∈ r.setupWhite, c.length = 2)
    (ms : List (Int × Int × Int)) :
    ∃ info, parseHeader (some (flushContent (applyMoves r ms))) = Except.ok info ∧
      info.moveCount = r.moves.length + ms.length := by
  have hmc : ∀ c : Str, (parseHeaderContent c).moveCount = countMoves c := fun c => rfl
  have hmap : ∀ nd ∈ ms.map nodeOfMove, goodNode nd := by
    intro nd hnd
    obtain ⟨m, hm, hmn⟩ := List.mem_map.mp hnd
    rw [← hmn]
    exact moveNode_good m.1 m.2.1 m.2.2
  refine ⟨parseHeaderContent (flushContent (applyMoves r ms)), rfl, ?_⟩
  rw [hmc, applyMoves_eq, flushContent_split]
  simp only [show setupSegment { r with moves := r.moves ++ ms.map nodeOfMove }
      = setupSegment r from rfl]
  simp [countMoves, List.append_assoc,
    countMoves_append_semiFree (intDigits r.boardSize)
      (semiFree_intDigits r.boardSize),
    countMoves_append_semiFree (formatKomi r.komiTenths)
      (semiFree_formatKomi r.komiTenths),
    countMoves_append_semiFree r.playerBlack hpb,
    countMoves_append_semiFree r.playerWhite hpw,
    countMoves_append_semiFree r.date hdate,
    countMoves_append_semiFree r.result hres,
    countMoves_setupSegment r hsb hsw,
    countMoves_flatten r.moves hmoves,
    countMoves_flatten (ms.map nodeOfMove) hmap]

/-- C4 (witness): a record carrying setup stones (as the mid-game recording
toggle produces) and one already-recorded move, extended by two AddMove
calls (one a pass), parses with move count three. -/
theorem C4_writer_crash_safety_witness :
    ∃ info, parseHeader (some (flushContent (applyMoves
        (addMove (addSetupPosition (newGameRecord 9 65 1 5 "2026-01-15".data)
          (setCell (setCell (makeBoard 9) 2 3 1) 4 5 2)) 2 2 2)
        [(4, 4, 1), (-1, -1, 2)]))) = Except.ok info ∧
      info.moveCount = (addMove (addSetupPosition
        (newGameRecord 9 65 1 5 "2026-01-15".data)
        (setCell (setCell (makeBoard 9) 2 3 1) 4 5 2)) 2 2 2).moves.length + 2 :=
  C4_writer_crash_safety
    (addMove (addSetupPosition (newGameRecord 9 65 1 5 "2026-01-15".data)
      (setCell (setCell (makeBoard 9) 2 3 1) 4 5 2)) 2 2 2)
    (by decide) (by decide) (by decide) (by decide)
    (by
      intro nd hnd
      rw [show (addMove (addSetupPosition (newGameRecord 9 65 1 5 "2026-01-15".data)
          (setCell (setCell (makeBoard 9) 2 3 1) 4 5 2)) 2 2 2).moves
          = [moveNode 2 2 2] from rfl, List.mem_singleton] at hnd
      subst hnd
      exact moveNode_good 2 2 2)
    (by decide) (by decide) [(4, 4, 1), (-1, -1, 2)]

/-- The board of claim C8: exactly a black stone at (3,2) and a white stone
at (5,4) on a 9x9 board. -/
def c8Board : List (List Int) := setCell (setCell (makeBoard 9) 2 3 1) 4 5 2

/-- C8: recording the two-stone board through AddSetupPosition on a fresh
record and replaying the flushed file reproduces exactly those two stones
with zero moves applied. -/
theorem C8_setup_roundtrip :
    replayToEndContent (flushContent (addSetupPosition
      (newGameRecord 9 65 1 5 "2026-01-15".data) c8Board)) = (c8Board, 0) := by
  set_option maxRecDepth 10000 in rfl

/-! ## GTP engine session (engine/gtp/engine.go)

The session state machine is embedded as pure transition functions over an
explicit state.  Each Go method exchanges commands with the GnuGo subprocess
through sendCommand; the model takes those responses as arguments (an
Except for commands whose error the code inspects, a plain string for the
list_stones queries whose error Go discards, leaving the empty string) and
returns the successor state, the error returned to the caller, and the list
of commands sent.  The move callback and the goroutine that asks the engine
to reply are modelled as separate steps, matching the concurrency structure
(the callback and genmove run outside the lock). -/

/-- The BoardState snapshot type of package types. -/
structure BoardState where
  moveNumber : Int
  playerToMove : Int
  phase : Str
  board : List (List Int)
  outcome : Str
  lastX : Int
  lastY : Int
deriving Repr, DecidableEq

/-- NewBoardState: empty board, black to move, playing phase, no last move. -/
def newBoardState (size : Int) : BoardState :=
  { moveNumber := 0
    playerToMove := 1
    phase := "playing".data
    board := makeBoard size
    outcome := []
    lastX := -1
    lastY := -1 }

/-- The mutable state of a GTPEngine: configuration, board snapshot, turn
flag, consecutive-pass counter and game-over flag. -/
structure EngineState where
  boardSize : Int
  playerColor : Int
  boardState : BoardState
  myTurn : Bool
  passCount : Int
  gameOver : Bool
deriving Repr, DecidableEq

/-- State after NewGTPEngine plus Connect's setup sequence, before any move:
the human moves first exactly when they play black. -/
def connectedState (size playerColor : Int) : EngineState :=
  { boardSize := size
    playerColor := playerColor
    boardState := newBoardState size
    myTurn := playerColor == 1
    passCount := 0
    gameOver := false }

/-- Result of one engine-session operation: successor state, error returned
to the caller, commands sent to the subprocess. -/
structure StepResult where
  state : EngineState
  err : Option Str
  sent : List Str
deriving Repr, DecidableEq

/-- strings.Fields: split on runs of whitespace. -/
def fieldsAux : Str → Str → List Str
  | [], acc => if acc = [] then [] else [acc.reverse]
  | c :: rest, acc =>
    if isSpaceCh c then
      (if acc = [] then fieldsAux rest [] else acc.reverse :: fieldsAux rest [])
    else fieldsAux rest (c :: acc)

/-- strings.Fields of a response line. -/
def fields (s : Str) : List Str := fieldsAux s []

/-- Place the stones listed in a list_stones response (vertices that decode
to nonnegative coordinates). -/
def placeStones (b : List (List Int)) (resp : Str) (size color : Int) :
    List (List Int) :=
  (fields resp).foldl
    (fun b v =>
      match gtpToPos v size with
      | Except.ok (x, y) => if 0 ≤ x ∧ 0 ≤ y then setCell b y x color else b
      | Except.error _ => b) b

/-- updateBoardFromGnuGo: clear every cell of the board, then place the
stones from the two list_stones responses. -/
def updateBoardFromGnuGo (s : EngineState) (blackResp whiteResp : Str) :
    EngineState :=
  let cleared := s.boardState.board.map (fun row => row.map (fun _ => 0))
  let b1 := placeStones cleared blackResp s.boardSize 1
  let b2 := placeStones b1 whiteResp s.boardSize 2
  { s with boardState := { s.boardState with board := b2 } }

/-- handleGameEnd: set the game-over flag and the finished phase, request
the final score, and record the outcome (a fallback text when the score
query fails). -/
def handleGameEnd (s : EngineState) (finalScoreResp : Except Str Str) :
    EngineState × List Str :=
  let outcome :=
    match finalScoreResp with
    | Except.error _ => "Game ended".data
    | Except.ok score => score
  ({ s with
      gameOver := true
      boardState := { s.boardState with
        phase := "finished".data
        outcome := outcome } },
    ["final_score".data])

/-- PlayMove: rejected when the game is over, when it is not the human's
turn, or when the engine refuses the play command; on success the grid is
updated optimistically, the turn flips, the pass counter resets, and the
board is reconciled from the engine's stone listing. -/
def playMove (s : EngineState) (x y : Int) (playResp : Except Str Str)
    (blackResp whiteResp : Str) : StepResult :=
  if s.gameOver then ⟨s, some "game is over".data, []⟩
  else if ¬ s.myTurn then ⟨s, some "not your turn".data, []⟩
  else
    let vertex := posToGTP x y s.boardSize
    let cmd := "play ".data ++ colorToGTP s.playerColor ++ " ".data ++ vertex
    match playResp with
    | Except.error e => ⟨s, some ("illegal move: ".data ++ e), [cmd]⟩
    | Except.ok _ =>
      let bs := s.boardState
      let bs := { bs with
        board := setCell bs.board y x s.playerColor
        lastX := x
        lastY := y
        moveNumber := bs.moveNumber + 1
        playerToMove := oppositeColor s.playerColor }
      let s1 := { s with
        boardState := bs
        passCount := 0 }
      let s2 := updateBoardFromGnuGo s1 blackResp whiteResp
      ⟨{ s2 with myTurn := false }, none,
        [cmd, "list_stones black".data, "list_stones white".data]⟩

/-- Pass: same preconditions as PlayMove; on success the pass counter is
incremented, and reaching two consecutive passes ends the game with a
final-score request. -/
def passTurn (s : EngineState) (playResp : Except Str Str)
    (finalScoreResp : Except Str Str) : StepResult :=
  if s.gameOver then ⟨s, some "game is over".data, []⟩
  else if ¬ s.myTurn then ⟨s, some "not your turn".data, []⟩
  else
    let cmd := "play ".data ++ colorToGTP s.playerColor ++ " pass".data
    match playResp with
    | Except.error e => ⟨s, some ("failed to pass: ".data ++ e), [cmd]⟩
    | Except.ok _ =>
      let bs := { s.boardState with
        lastX := -1
        lastY := -1
        moveNumber := s.boardState.moveNumber + 1
        playerToMove := oppositeColor s.playerColor }
      let s1 := { s with
        boardState := bs
        passCount := s.passCount + 1
        myTurn := false }
      if s1.passCount ≥ 2 then
        let p := handleGameEnd s1 finalScoreResp
        ⟨p.1, none, cmd :: p.2⟩
      else ⟨s1, none, [cmd]⟩

/-- triggerEngineMove: the background task that asks GnuGo for its move and
classifies the reply as resignation, pass, or vertex. -/
def triggerEngineMove (s : EngineState) (genResp : Except Str Str)
    (blackResp whiteResp : Str) (finalScoreResp : Except Str Str) :
    EngineState × List Str :=
  if s.gameOver then (s, [])
  else
    let engineColor := oppositeColor s.playerColor
    let cmd := "genmove ".data ++ colorToGTP engineColor
    match genResp with
    | Except.error _ => (s, [cmd])
    | Except.ok resp0 =>
      let resp := trimSpace (resp0.map toUpperCh)
      if resp = "RESIGN".data then
        let winner := if s.playerColor = 2 then "White".data else "Black".data
        ({ s with
            gameOver := true
            boardState := { s.boardState with
              phase := "finished".data
              outcome := winner ++ " wins by resignation".data } }, [cmd])
      else if resp = "PASS".data then
        let bs := { s.boardState with
          lastX := -1
          lastY := -1
          moveNumber := s.boardState.moveNumber + 1
          playerToMove := s.playerColor }
        let s1 := { s with
          boardState := bs
          passCount := s.passCount + 1
          myTurn := true }
        if s1.passCount ≥ 2 then
          let p := handleGameEnd s1 finalScoreResp
          (p.1, cmd :: p.2)
        else (s1, [cmd])
      else
        match gtpToPos resp s.boardSize with
        | Except.error _ => (s, [cmd])
        | Except.ok (x, y) =>
          let bs := { s.boardState with
            board := setCell s.boardState.board y x engineColor
            lastX := x
            lastY := y
            moveNumber := s.boardState.moveNumber + 1
            playerToMove := s.playerColor }
          let s1 := { s with
        boardState := bs
        passCount := 0 }
          let s2 := updateBoardFromGnuGo s1 blackResp whiteResp
          ({ s2 with myTurn := true },
            [cmd, "list_stones black".data, "list_stones white".data])

/-- C3: PlayMove returns an error and leaves the whole session state
untouched whenever the game is over, it is not the human's turn, or the
engine rejects the play command. -/
theorem C3_playMove_error_no_state_change (s : EngineState) (x y : Int)
    (playResp : Except Str Str) (blackResp whiteResp : Str)
    (h : s.gameOver = true ∨ s.myTurn = false ∨ ∃ e, playResp = Except.error e) :
    (playMove s x y playResp blackResp whiteResp).state = s ∧
    (playMove s x y playResp blackResp whiteResp).err.isSome = true := by
  by_cases hg : s.gameOver
  · simp [playMove, hg]
  · rcases h with h | h | ⟨e, he⟩
    · exact absurd h hg
    · simp [playMove, hg, h]
    · subst he
      by_cases hmt : s.myTurn
      · simp [playMove, hg, hmt]
      · simp [playMove, hg, hmt]

/-- C3 (witness): playing out of turn as white before the engine's opening
move errors and changes nothing. -/
theorem C3_playMove_error_no_state_change_witness :
    (playMove (connectedState 9 2) 0 0 (Except.ok []) [] []).state
      = connectedState 9 2 ∧
    (playMove (connectedState 9 2) 0 0 (Except.ok []) [] []).err.isSome = true :=
  C3_playMove_error_no_state_change (connectedState 9 2) 0 0 (Except.ok []) [] []
    (Or.inr (Or.inl (by decide)))

/-- C2: from a live session with no pending pass, two consecutive successful
passes end the game, in both orders: (a) the human passes and the engine
replies PASS, (b) the engine passes and the human then passes.  In both
cases the game-over flag is set, the phase becomes finished, and a
final-score request is issued; and from any game-over state every PlayMove
or Pass call returns the game-is-over error, changes nothing, and sends
nothing. -/
theorem C2_double_pass_finishes (s : EngineState) (hover : s.gameOver = false)
    (hpass : s.passCount = 0) (r1 r2 : Str) (fs : Except Str Str)
    (blackResp whiteResp : Str) :
    (s.myTurn = true →
      (passTurn s (Except.ok r1) fs).err = none ∧
      (passTurn s (Except.ok r1) fs).state.gameOver = false ∧
      ((triggerEngineMove (passTurn s (Except.ok r1) fs).state
          (Except.ok "PASS".data) blackResp whiteResp fs).1.gameOver = true ∧
        (triggerEngineMove (passTurn s (Except.ok r1) fs).state
          (Except.ok "PASS".data) blackResp whiteResp fs).1.boardState.phase
          = "finished".data ∧
        "final_score".data ∈ (triggerEngineMove (passTurn s (Except.ok r1) fs).state
          (Except.ok "PASS".data) blackResp whiteResp fs).2)) ∧
    ((triggerEngineMove s (Except.ok "PASS".data) blackResp whiteResp fs).1.gameOver
        = false ∧
      (triggerEngineMove s (Except.ok "PASS".data) blackResp whiteResp fs).1.myTurn
        = true ∧
      ((passTurn (triggerEngineMove s (Except.ok "PASS".data) blackResp whiteResp
          fs).1 (Except.ok r2) fs).err = none ∧
        (passTurn (triggerEngineMove s (Except.ok "PASS".data) blackResp whiteResp
          fs).1 (Except.ok r2) fs).state.gameOver = true ∧
        (passTurn (triggerEngineMove s (Except.ok "PASS".data) blackResp whiteResp
          fs).1 (Except.ok r2) fs).state.boardState.phase = "finished".data ∧
        "final_score".data ∈ (passTurn (triggerEngineMove s (Except.ok "PASS".data)
          blackResp whiteResp fs).1 (Except.ok r2) fs).sent)) ∧
    (∀ t : EngineState, t.gameOver = true →
      ∀ (x y : Int) (pr fr : Except Str Str) (br wr : Str),
        playMove t x y pr br wr = ⟨t, some "game is over".data, []⟩ ∧
        passTurn t pr fr = ⟨t, some "game is over".data, []⟩) := by
  refine ⟨?_, ?_, ?_⟩
  · intro hmt
    simp +decide [passTurn, triggerEngineMove, handleGameEnd, hover, hpass, hmt]
  · simp +decide [passTurn, triggerEngineMove, handleGameEnd, hover, hpass]
  · intro t ht x y pr fr br wr
    constructor
    · simp [playMove, ht]
    · simp [passTurn, ht]

/-- C2 (witness): a black-playing human passes, the engine replies PASS, and
the session is finished. -/
theorem C2_double_pass_finishes_witness :
    (triggerEngineMove (passTurn (connectedState 9 1) (Except.ok [])
        (Except.ok "B+1.5".data)).state (Except.ok "PASS".data) [] []
        (Except.ok "B+1.5".data)).1.gameOver = true :=
  (((C2_double_pass_finishes (connectedState 9 1) (by decide) (by decide) [] []
    (Except.ok "B+1.5".data) [] []).1 (by decide)).2.2).1

/-! ## Planning-mode game tree (sgf/gametree.go)

Go represents the tree as mutable nodes with parent pointers and a Current
pointer.  The functional counterpart is a zipper: the current subtree plus
the stack of surrounding contexts (parent move, siblings to the left and to
the right), innermost first.  An empty context stack means Current is Root;
reassembling every context recovers the whole tree, and two zipper states
are equal exactly when the Go states have the same tree shape and the same
current pointer. -/

/-- A game node: its move string (empty for the root) and ordered children
(first child is the main line). -/
inductive GameNode where
  | mk : Str → List GameNode → GameNode

/-- The node's move string. -/
def GameNode.move : GameNode → Str
  | .mk m _ => m

/-- The node's children. -/
def GameNode.children : GameNode → List GameNode
  | .mk _ cs => cs

theorem GameNode.eta (n : GameNode) : GameNode.mk n.move n.children = n := by
  cases n
  rfl

/-- One level of surrounding context: the parent's move and the siblings on
each side of the current node. -/
structure Ctx where
  move : Str
  before : List GameNode
  after : List GameNode

/-- The zipper: current subtree and the contexts up to the root. -/
structure GameTree where
  cur : GameNode
  ctxs : List Ctx

/-- NewGameTree: an empty root, current at the root. -/
def newGameTree : GameTree := ⟨.mk [] [], []⟩

/-- Find the first child carrying the move, split into (left siblings, the
child, right siblings) — the scan AddMove performs. -/
def splitAtMove : List GameNode → Str → Option (List GameNode × GameNode × List GameNode)
  | [], _ => none
  | c :: cs, m =>
    if c.move = m then some ([], c, cs)
    else
      match splitAtMove cs m with
      | some (l, x, r) => some (c :: l, x, r)
      | none => none

/-- AddMove: navigate to the first existing child with the same move, or
append a fresh child and navigate to it. -/
def addMoveTree (t : GameTree) (m : Str) : GameTree :=
  match splitAtMove t.cur.children m with
  | some (l, c, r) => ⟨c, ⟨t.cur.move, l, r⟩ :: t.ctxs⟩
  | none => ⟨.mk m [], ⟨t.cur.move, t.cur.children, []⟩ :: t.ctxs⟩

/-- Back: move to the parent; false at the root. -/
def backTree (t : GameTree) : GameTree × Bool :=
  match t.ctxs with
  | [] => (t, false)
  | c :: rest => (⟨.mk c.move (c.before ++ t.cur :: c.after), rest⟩, true)

/-- Forward: move to the child at the index; false when out of range. -/
def forwardTree (t : GameTree) (idx : Int) : GameTree × Bool :=
  if 0 ≤ idx ∧ idx < (t.cur.children.length : Int) then
    (⟨t.cur.children.getD idx.toNat (.mk [] []),
      ⟨t.cur.move, t.cur.children.take idx.toNat,
        t.cur.children.drop (idx.toNat + 1)⟩ :: t.ctxs⟩, true)
  else (t, false)

/-- Reassemble one context around a node. -/
def plug (n : GameNode) (c : Ctx) : GameNode :=
  .mk c.move (c.before ++ n :: c.after)

/-- The whole tree from the root, i.e. the Go Root pointer. -/
def wholeTree (t : GameTree) : GameNode := t.ctxs.foldl plug t.cur

/-- Every node's children carry pairwise distinct move strings. -/
inductive NodupMoves : GameNode → Prop where
  | node : ∀ (m : Str) (cs : List GameNode),
      (cs.map GameNode.move).Nodup → (∀ c ∈ cs, NodupMoves c) →
      NodupMoves (GameNode.mk m cs)

/-- The navigation operations of the tree API. -/
inductive TreeOp where
  | add : Str → TreeOp
  | back : TreeOp
  | fwd : Int → TreeOp

/-- Apply one operation (ignoring the returned success flag, as a caller
navigating freely would). -/
def applyOp (t : GameTree) : TreeOp → GameTree
  | .add m => addMoveTree t m
  | .back => (backTree t).1
  | .fwd i => (forwardTree t i).1

/-- Run a sequence of operations from a fresh tree. -/
def runOps (ops : List TreeOp) : GameTree := ops.foldl applyOp newGameTree

theorem splitAtMove_some (cs : List GameNode) (m : Str) :
    ∀ l c r, splitAtMove cs m = some (l, c, r) → cs = l ++ c :: r ∧ c.move = m := by
  induction cs with
  | nil =>
    intro l c r h
    simp [splitAtMove] at h
  | cons d cs ih =>
    intro l c r h
    rw [splitAtMove] at h
    by_cases hd : d.move = m
    · rw [if_pos hd] at h
      simp only [Option.some.injEq, Prod.mk.injEq] at h
      obtain ⟨rfl, rfl, rfl⟩ := h
      exact ⟨rfl, hd⟩
    · rw [if_neg hd] at h
      cases hsp : splitAtMove cs m with
      | none =>
        rw [hsp] at h
        exact absurd h (by simp)
      | some p =>
        obtain ⟨l2, c2, r2⟩ := p
        rw [hsp] at h
        simp only [Option.some.injEq, Prod.mk.injEq] at h
        obtain ⟨rfl, rfl, rfl⟩ := h
        obtain ⟨he, hm⟩ := ih l2 c2 r2 hsp
        constructor
        · rw [he]
          rfl
        · exact hm

theorem splitAtMove_none (cs : List GameNode) (m : Str)
    (h : splitAtMove cs m = none) : ∀ c ∈ cs, ¬ c.move = m := by
  induction cs with
  | nil =>
    intro c hc
    simp at hc
  | cons d cs ih =>
    intro c hc
    rw [splitAtMove] at h
    by_cases hd : d.move = m
    · rw [if_pos hd] at h
      exact absurd h (by simp)
    · rw [if_neg hd] at h
      rcases List.mem_cons.mp hc with rfl | hc2
      · exact hd
      · cases hsp : splitAtMove cs m with
        | none => exact ih hsp c hc2
        | some p =>
          obtain ⟨l2, c2, r2⟩ := p
          rw [hsp] at h
          exact absurd h (by simp)

theorem splitAtMove_append (cs : List GameNode) (m : Str) (x : GameNode)
    (h : splitAtMove cs m = none) (hx : x.move = m) :
    splitAtMove (cs ++ [x]) m = some (cs, x, []) := by
  induction cs with
  | nil => simp [splitAtMove, hx]
  | cons d cs ih =>
    rw [splitAtMove] at h
    by_cases hd : d.move = m
    · rw [if_pos hd] at h
      exact absurd h (by simp)
    · rw [if_neg hd] at h
      rw [List.cons_append, splitAtMove, if_neg hd]
      cases hsp : splitAtMove cs m with
      | none => rw [ih hsp]
      | some p =>
        obtain ⟨l2, c2, r2⟩ := p
        rw [hsp] at h
        exact absurd h (by simp)

/-- Back after AddMove always succeeds and reassembles the parent. -/
theorem back_addMove (t : GameTree) (m : Str) :
    (backTree (addMoveTree t m)).2 = true := by
  unfold addMoveTree
  cases hsp : splitAtMove t.cur.children m with
  | none => rfl
  | some p =>
    obtain ⟨l, c, r⟩ := p
    rfl

/-- After AddMove and Back, the tree is the original with the move present:
an existing-move AddMove leaves the tree unchanged, a fresh one appends
exactly one child. -/
theorem back_addMove_state (t : GameTree) (m : Str) :
    (splitAtMove t.cur.children m ≠ none → (backTree (addMoveTree t m)).1 = t) ∧
    (splitAtMove t.cur.children m = none →
      (backTree (addMoveTree t m)).1 =
        ⟨.mk t.cur.move (t.cur.children ++ [.mk m []]), t.ctxs⟩) := by
  constructor
  · intro hne
    cases hsp : splitAtMove t.cur.children m with
    | none => exact absurd hsp hne
    | some p =>
      obtain ⟨l, c, r⟩ := p
      obtain ⟨he, _⟩ := splitAtMove_some t.cur.children m l c r hsp
      unfold addMoveTree
      rw [hsp]
      unfold backTree
      simp only
      rw [← he, GameNode.eta]
  · intro hsp
    unfold addMoveTree
    rw [hsp]
    rfl

/-- C9 helper: re-adding the same move from the parent navigates to the same
node, recreating the identical tree state. -/
theorem addMove_back_addMove (t : GameTree) (m : Str) :
    addMoveTree (backTree (addMoveTree t m)).1 m = addMoveTree t m := by
  cases hsp : splitAtMove t.cur.children m with
  | some p =>
    rw [(back_addMove_state t m).1 (by rw [hsp]; simp)]
  | none =>
    rw [(back_addMove_state t m).2 hsp]
    have key : addMoveTree ⟨.mk t.cur.move (t.cur.children ++ [.mk m []]), t.ctxs⟩ m
        = ⟨.mk m [], ⟨t.cur.move, t.cur.children, []⟩ :: t.ctxs⟩ := by
      unfold addMoveTree
      rw [show (GameTree.mk (.mk t.cur.move (t.cur.children ++ [GameNode.mk m []]))
          t.ctxs).cur.children = t.cur.children ++ [GameNode.mk m []] from rfl,
        splitAtMove_append t.cur.children m (GameNode.mk m []) hsp rfl]
      rfl
    have key2 : addMoveTree t m
        = ⟨.mk m [], ⟨t.cur.move, t.cur.children, []⟩ :: t.ctxs⟩ := by
      unfold addMoveTree
      rw [hsp]
    rw [key, key2]

/-- Back never changes the whole tree. -/
theorem wholeTree_back (t : GameTree) : wholeTree (backTree t).1 = wholeTree t := by
  obtain ⟨cur, ctxs⟩ := t
  cases ctxs with
  | nil => rfl
  | cons c rest => rfl

/-- Forward never changes the whole tree. -/
theorem wholeTree_forward (t : GameTree) (i : Int) :
    wholeTree (forwardTree t i).1 = wholeTree t := by
  unfold forwardTree
  split
  · next hb =>
    have hi : i.toNat < t.cur.children.length := by omega
    have h1 : wholeTree ⟨t.cur.children.getD i.toNat (.mk [] []),
        ⟨t.cur.move, t.cur.children.take i.toNat,
          t.cur.children.drop (i.toNat + 1)⟩ :: t.ctxs⟩
        = List.foldl plug (plug (t.cur.children.getD i.toNat (.mk [] []))
            ⟨t.cur.move, t.cur.children.take i.toNat,
              t.cur.children.drop (i.toNat + 1)⟩) t.ctxs := rfl
    rw [h1]
    have h2 : plug (t.cur.children.getD i.toNat (.mk [] []))
        ⟨t.cur.move, t.cur.children.take i.toNat,
          t.cur.children.drop (i.toNat + 1)⟩ = t.cur := by
      have hget : t.cur.children.getD i.toNat (.mk [] []) = t.cur.children[i.toNat] := by
        rw [List.getD_eq_getElem?_getD, List.getElem?_eq_getElem hi]
        rfl
      unfold plug
      simp only
      rw [hget, ← List.drop_eq_getElem_cons hi, List.take_append_drop, GameNode.eta]
    rw [h2]
    rfl
  · rfl

/-- Replacing the focus by a node with the same move that keeps the nodup
property keeps it through full reassembly as well. -/
theorem foldl_plug_mono (ctxs : List Ctx) : ∀ a b : GameNode, a.move = b.move →
    (NodupMoves a → NodupMoves b) →
    (NodupMoves (ctxs.foldl plug a) → NodupMoves (ctxs.foldl plug b)) ∧
    (ctxs.foldl plug a).move = (ctxs.foldl plug b).move := by
  induction ctxs with
  | nil =>
    intro a b hm himp
    exact ⟨himp, hm⟩
  | cons c rest ih =>
    intro a b hm himp
    apply ih
    · rfl
    · intro h
      cases h with
      | node _ _ hnd hall =>
        constructor
        · simp only [List.map_append, List.map_cons] at hnd ⊢
          rwa [← hm]
        · intro d hd
          rcases List.mem_append.mp hd with hd | hd
          · exact hall d (by simp [hd])
          · rcases List.mem_cons.mp hd with rfl | hd
            · exact himp (hall a (by simp))
            · exact hall d (by simp [hd])

/-- Appending one fresh-move child preserves the nodup property at a node. -/
theorem nodup_append_fresh (n : GameNode) (m : Str)
    (hfresh : ∀ c ∈ n.children, ¬ c.move = m) (h : NodupMoves n) :
    NodupMoves (.mk n.move (n.children ++ [.mk m []])) := by
  cases h with
  | node mv cs hnd hall =>
    simp only [GameNode.move, GameNode.children] at hfresh ⊢
    constructor
    · simp only [List.map_append, List.map_cons, List.map_nil]
      refine List.Nodup.append hnd (by simp) ?_
      rw [show GameNode.move (.mk m []) = m from rfl]
      intro a ha hb
      rw [List.mem_singleton] at hb
      subst hb
      obtain ⟨c, hc, hcm⟩ := List.mem_map.mp ha
      exact hfresh c hc hcm
    · intro d hd
      rcases List.mem_append.mp hd with hd | hd
      · exact hall d hd
      · rw [List.mem_singleton] at hd
        subst hd
        exact NodupMoves.node m [] (by simp) (by simp)

/-- Every operation preserves the global no-duplicate-moves invariant. -/
theorem nodup_applyOp (t : GameTree) (op : TreeOp)
    (h : NodupMoves (wholeTree t)) : NodupMoves (wholeTree (applyOp t op)) := by
  cases op with
  | back =>
    rw [show applyOp t .back = (backTree t).1 from rfl, wholeTree_back]
    exact h
  | fwd i =>
    rw [show applyOp t (.fwd i) = (forwardTree t i).1 from rfl, wholeTree_forward]
    exact h
  | add m =>
    show NodupMoves (wholeTree (addMoveTree t m))
    cases hsp : splitAtMove t.cur.children m with
    | some p =>
      obtain ⟨l, c, r⟩ := p
      have hsame : wholeTree (addMoveTree t m) = wholeTree t := by
        unfold addMoveTree
        rw [hsp]
        have h1 : wholeTree ⟨c, ⟨t.cur.move, l, r⟩ :: t.ctxs⟩
            = List.foldl plug (plug c ⟨t.cur.move, l, r⟩) t.ctxs := rfl
        rw [h1]
        have h2 : plug c ⟨t.cur.move, l, r⟩ = t.cur := by
          obtain ⟨he, _⟩ := splitAtMove_some t.cur.children m l c r hsp
          unfold plug
          simp only
          rw [← he, GameNode.eta]
        rw [h2]
        rfl
      rw [hsame]
      exact h
    | none =>
      have hw : wholeTree (addMoveTree t m) =
          t.ctxs.foldl plug (.mk t.cur.move (t.cur.children ++ [.mk m []])) := by
        unfold addMoveTree
        rw [hsp]
        rfl
      rw [hw]
      exact (foldl_plug_mono t.ctxs t.cur
        (.mk t.cur.move (t.cur.children ++ [.mk m []])) rfl
        (nodup_append_fresh t.cur m (splitAtMove_none _ _ hsp))).1 h

theorem nodup_runOps (ops : List TreeOp) : ∀ t : GameTree,
    NodupMoves (wholeTree t) → NodupMoves (wholeTree (List.foldl applyOp t ops)) := by
  induction ops with
  | nil =>
    intro t h
    exact h
  | cons op ops ih =>
    intro t h
    exact ih (applyOp t op) (nodup_applyOp t op h)

/-- C9: AddMove deduplication.  (1) After AddMove(m) and Back, re-adding m
returns the identical tree state (same current node, same tree) and going
back again shows the parent unchanged; (2) adding a move carried by no
existing child creates exactly one new child, appended at the end; (3)
consequently, along any sequence of AddMove, Back and Forward calls from a
fresh tree, no node ever has two children carrying the same move string. -/
theorem C9_addMove_dedup :
    (∀ (t : GameTree) (m : Str),
      (backTree (addMoveTree t m)).2 = true ∧
      addMoveTree (backTree (addMoveTree t m)).1 m = addMoveTree t m ∧
      (backTree (addMoveTree (backTree (addMoveTree t m)).1 m)).1
        = (backTree (addMoveTree t m)).1) ∧
    (∀ (t : GameTree) (m2 : Str), splitAtMove t.cur.children m2 = none →
      (addMoveTree t m2).cur = GameNode.mk m2 [] ∧
      (backTree (addMoveTree t m2)).1.cur.children
        = t.cur.children ++ [GameNode.mk m2 []]) ∧
    (∀ ops : List TreeOp, NodupMoves (wholeTree (runOps ops))) := by
  refine ⟨?_, ?_, ?_⟩
  · intro t m
    refine ⟨back_addMove t m, addMove_back_addMove t m, ?_⟩
    rw [addMove_back_addMove t m]
  · intro t m2 hsp
    constructor
    · unfold addMoveTree
      rw [hsp]
    · rw [(back_addMove_state t m2).2 hsp]
      rfl
  · intro ops
    refine nodup_runOps ops newGameTree ?_
    exact NodupMoves.node [] [] (by simp) (by simp)

/-- C9 (witness): adding a first move to a fresh tree creates the single
child, appended under the root. -/
theorem C9_addMove_dedup_witness :
    (addMoveTree newGameTree ";B[pd]".data).cur = GameNode.mk ";B[pd]".data [] ∧
    (backTree (addMoveTree newGameTree ";B[pd]".data)).1.cur.children
      = newGameTree.cur.children ++ [GameNode.mk ";B[pd]".data []] :=
  C9_addMove_dedup.2.1 newGameTree ";B[pd]".data rfl

end Termsuji
